import Mathlib

/-!
# Verification of the rev-dal revision/query subsystem

A shallow embedding of the data model and operations of the `rev-dal`
relational data-access layer, together with theorems settling the frozen
claims about its specification.

The embedding follows the TypeScript source:

* `src/lib/revision.ts` — `newRevision`, `deleteAllRevisions`,
  `getNotStaleOrDeleted` handlers;
* `src/lib/model.ts` — `save` / `_insert` / `_update`, `_validate`,
  `getSafeColumnNames` / `getColumnNames`, `loadManyRelated`,
  `addManyRelated`;
* `src/lib/model-types.ts` — `FilterWhereBuilder` (lazy revision guards),
  the operator bag (`createOperators`);
* `src/lib/model-registry.ts` — `QueryBuilder` (`_buildSelectQuery`,
  `_buildComplexJoinQuery`, `increment`, `remapRowToCamelCase`);
* `src/lib/errors.ts` — the error taxonomy and `convertPostgreSQLError`.

Physical storage is modelled as a list of rows; the SQL statements the
code renders (INSERT, UPDATE ... WHERE id = $, UPDATE ... WHERE
_old_rev_of = $, SELECT with WHERE predicates) are interpreted against
that list with standard relational semantics.
-/

namespace RevDal

/-- A physical row of a revision-enabled table.  The fields mirror the
revision metadata columns generated by `revision.getSchema()`
(`_rev_id`, `_rev_user`, `_rev_date`, `_rev_tags`, `_rev_deleted`,
`_old_rev_of`) plus representative data columns (`title`, `urls`). -/
structure Row where
  id : String
  oldRevOf : Option String := none
  revDeleted : Bool := false
  revId : String := ""
  revUser : String := ""
  revDate : Nat := 0
  revTags : List String := []
  title : String := ""
  urls : List String := []
deriving DecidableEq

/-- A table is its list of physical rows. -/
abbrev Table := List Row

/-- Number of rows satisfying a predicate. -/
def countBy (t : Table) (p : Row → Bool) : Nat := (t.filter p).length

/-- `applyRevisionMetadata` (revision.ts): stamp fresh revision metadata
(new revision id, author, timestamp, tags) onto an instance.  The
user-null / invalid-date `ValidationError` paths are not modelled here:
all callers in the claims supply a valid user and date. -/
def applyRevisionMetadata (inst : Row) (user : String) (date : Nat)
    (tags : List String) (revId : String) : Row :=
  { inst with revId := revId, revUser := user, revDate := date, revTags := tags }

/-- `newRevision` (revision.ts, `getNewRevisionHandler`): copy the full
current row's field values, set `_old_rev_of` to the current logical id,
strip the `id` column (storage assigns the fresh physical id
`newPhysId`), INSERT that archived copy, then re-stamp the original
in-memory instance with fresh revision metadata.  Returns the updated
table and the re-stamped instance. -/
def newRevision (t : Table) (inst : Row) (newPhysId : String)
    (user : String) (date : Nat) (tags : List String) (newRevId : String) :
    Table × Row :=
  let archivedCopy : Row := { inst with id := newPhysId, oldRevOf := some inst.id }
  let t1 := t ++ [archivedCopy]
  let inst1 := applyRevisionMetadata inst user date tags newRevId
  (t1, inst1)

/-- `Model.save` on a persisted instance (model.ts `_update`): issue
`UPDATE ... WHERE id = $` writing the instance's current values, i.e.
replace every row whose `id` equals the instance's id by the instance. -/
def saveUpdate (t : Table) (inst : Row) : Table :=
  t.map (fun r => if r.id == inst.id then inst else r)

/-- One `newRevision` + mutate + `save` cycle's inputs: the storage-assigned
physical id for the archived copy, the fresh revision metadata, and the
edit applied by the caller to the data columns before saving. -/
structure Cycle where
  newPhysId : String
  user : String
  date : Nat
  tags : List String
  newRevId : String
  newTitle : String
deriving DecidableEq

/-- A full `newRevision(user,{tags})` + edit + `save()` cycle on the Live
instance. -/
def newRevisionCycle (s : Table × Row) (c : Cycle) : Table × Row :=
  let tr := newRevision s.1 s.2 c.newPhysId c.user c.date c.tags c.newRevId
  let edited := { tr.2 with title := c.newTitle }
  (saveUpdate tr.1 edited, edited)

/-- Iterate `newRevision`+`save` cycles. -/
def runCycles (s : Table × Row) (cs : List Cycle) : Table × Row :=
  cs.foldl newRevisionCycle s

/-- Row is the Live row of logical document `lid`:
`_old_rev_of IS NULL AND _rev_deleted = false` and the physical id is the
logical id. -/
def isLiveFor (lid : String) (r : Row) : Bool :=
  r.id == lid && r.oldRevOf == none && !r.revDeleted

/-- Row is an Archived copy of logical document `lid`. -/
def isArchivedFor (lid : String) (r : Row) : Bool :=
  r.oldRevOf == some lid

/-- Row physically belongs to logical document `lid`. -/
def belongsTo (lid : String) (r : Row) : Bool :=
  r.id == lid || r.oldRevOf == some lid

/-- Invariant of a logical document `lid` between cycles: the in-memory
Live instance carries the logical id and is neither archived nor deleted,
exactly one physical row carries the logical id as its `id`, that row is
the saved Live instance, and `k` rows are archived copies. -/
def DocInv (lid : String) (t : Table) (inst : Row) (k : Nat) : Prop :=
  inst.id = lid ∧ inst.oldRevOf = none ∧ inst.revDeleted = false ∧
  countBy t (fun r => r.id == lid) = 1 ∧
  (∀ r ∈ t, r.id = lid → r = inst) ∧
  countBy t (isArchivedFor lid) = k

instance (lid : String) (t : Table) (inst : Row) (k : Nat) :
    Decidable (DocInv lid t inst k) := by
  unfold DocInv
  infer_instance

/-- `deleteAllRevisions` (revision.ts, `getDeleteAllRevisionsHandler`):
capture the logical id, create one more revision tagged
`['delete', ...tags]`, mark it deleted, save it, then issue
`UPDATE ... SET _rev_deleted = true WHERE _old_rev_of = $1` and return
the deletion revision. -/
def deleteAllRevisions (t : Table) (inst : Row) (newPhysId : String)
    (user : String) (date : Nat) (tags : List String) (newRevId : String) :
    Table × Row :=
  let id := inst.id
  let deletionTags := "delete" :: tags
  let tr := newRevision t inst newPhysId user date deletionTags newRevId
  let rev := { tr.2 with revDeleted := true }
  let t2 := saveUpdate tr.1 rev
  let t3 := t2.map (fun r =>
    if r.oldRevOf == some id then { r with revDeleted := true } else r)
  (t3, rev)

/-- Hexadecimal digit (either case), as in the `is-uuid` v4 pattern. -/
def isHexDigit (c : Char) : Bool :=
  c.isDigit || ('a' ≤ c && c ≤ 'f') || ('A' ≤ c && c ≤ 'F')

/-- Character admissible at position `i` of a v4 UUID,
per the `is-uuid` pattern
`[0-9a-f]{8}-[0-9a-f]{4}-4[0-9a-f]{3}-[89ab][0-9a-f]{3}-[0-9a-f]{12}`
(case-insensitive). -/
def uuidV4CharOk (i : Nat) (c : Char) : Bool :=
  if i == 8 || i == 13 || i == 18 || i == 23 then c == '-'
  else if i == 14 then c == '4'
  else if i == 19 then
    c == '8' || c == '9' || c == 'a' || c == 'b' || c == 'A' || c == 'B'
  else isHexDigit c

/-- `isUUID.v4(id)`: the id is exactly 36 characters matching the v4
UUID shape. -/
def isUUIDv4 (s : String) : Bool :=
  let cs := s.toList
  cs.length == 36 && cs.enum.all (fun p => uuidV4CharOk p.1 p.2)

/-- Outcome of the guarded read: each thrown error kind, or the returned
Live row. -/
inductive GetResult
  | invalidUUID
  | notFound
  | deleted
  | stale
  | ok (r : Row)
deriving DecidableEq

/-- The fetch underlying `getNotStaleOrDeleted`: the builder is
`filterWhere({}).includeDeleted().includeStale().whereIn('id', [id])`
followed by `first()`, i.e. the first row whose id matches, ignoring the
default revision filters. -/
def firstById (t : Table) (i : String) : Option Row :=
  t.find? (fun r => r.id == i)

/-- `getNotStaleOrDeleted` (revision.ts,
`getNotStaleOrDeletedGetHandler`): validate the UUID shape before
querying, fetch ignoring revision filters, then classify: no row →
DocumentNotFound, `_rev_deleted` set → deleted error, `_old_rev_of`
present → stale error, otherwise return the Live row. -/
def getNotStaleOrDeleted (t : Table) (i : String) : GetResult :=
  if !isUUIDv4 i then .invalidUUID
  else
    match firstById t i with
    | none => .notFound
    | some data =>
      if data.revDeleted then .deleted
      else if data.oldRevOf.isSome then .stale
      else .ok data

/-- A SQL value bound into a predicate. -/
inductive SqlVal
  | null
  | bool (b : Bool)
  | str (s : String)
  | num (n : Int)
  | strList (l : List String)
deriving DecidableEq

/-- A basic predicate descriptor (`model-registry.ts` `_createPredicate`):
resolved storage column, comparison operator, bound value, optional cast
(the `valueTransform` applied to the placeholder). -/
structure Cond where
  column : String
  op : String
  value : SqlVal
  cast : Option String := none
deriving DecidableEq

/-- `QueryBuilder._addWhereCondition`: rewrite `=`/`!=` against a null
value into `IS`/`IS NOT`, then push the predicate onto the WHERE list. -/
def addWhereCondition (conds : List Cond) (column op : String) (v : SqlVal)
    (cast : Option String := none) : List Cond :=
  let effOp :=
    if v == SqlVal.null then
      (if op == "=" then "IS" else if op == "!=" then "IS NOT" else op)
    else op
  conds ++ [{ column := column, op := effOp, value := v, cast := cast }]

/-- The value of a storage column on a model row (the columns used by
the claims). -/
def colVal (r : Row) : String → SqlVal
  | "id" => SqlVal.str r.id
  | "_old_rev_of" =>
    match r.oldRevOf with
    | none => SqlVal.null
    | some s => SqlVal.str s
  | "_rev_deleted" => SqlVal.bool r.revDeleted
  | "_rev_id" => SqlVal.str r.revId
  | "title" => SqlVal.str r.title
  | "urls" => SqlVal.strList r.urls
  | _ => SqlVal.null

/-- Standard relational semantics of a rendered basic predicate over a
model row (the storage collaborator's evaluation of the generated SQL).
The modelled columns are non-nullable except `_old_rev_of`, which is
only compared with `IS NULL`, so two-valued evaluation is faithful. -/
def evalCond (c : Cond) (r : Row) : Bool :=
  let v := colVal r c.column
  if c.op == "IS" then v == c.value
  else if c.op == "IS NOT" then !(v == c.value)
  else if c.op == "=" then v == c.value
  else if c.op == "!=" then !(v == c.value)
  else if c.op == "= ANY" then
    match c.value, v with
    | SqlVal.strList l, SqlVal.str s => l.contains s
    | _, _ => false
  else if c.op == "@>" then
    match v, c.value with
    | SqlVal.strList a, SqlVal.strList b => b.all (fun x => a.contains x)
    | _, _ => false
  else if c.op == "&&" then
    match v, c.value with
    | SqlVal.strList a, SqlVal.strList b => b.any (fun x => a.contains x)
    | _, _ => false
  else false

/-- The `_old_rev_of IS NULL` revision guard predicate. -/
def staleGuard : Cond :=
  { column := "_old_rev_of", op := "IS", value := SqlVal.null }

/-- The `_rev_deleted = false` revision guard predicate. -/
def deletedGuard : Cond :=
  { column := "_rev_deleted", op := "=", value := SqlVal.bool false }

/-- State of a `FilterWhereBuilder` (model-types.ts): the wrapped query
builder's WHERE list plus the revision-guard bookkeeping flags. -/
structure FWState where
  hasRevisions : Bool
  conds : List Cond := []
  includeDeleted : Bool := false
  includeStale : Bool := false
  revisionFiltersApplied : Bool := false
deriving DecidableEq

/-- `FilterWhereBuilder._ensureRevisionFilters`: a no-op once applied;
otherwise mark applied, and for revision-enabled models push
`_old_rev_of IS NULL` unless `includeStale()` was called and
`_rev_deleted = false` unless `includeDeleted()` was called. -/
def ensureRevisionFilters (s : FWState) : FWState :=
  if s.revisionFiltersApplied then s
  else
    let s1 : FWState := { s with revisionFiltersApplied := true }
    if !s1.hasRevisions then s1
    else
      let s2 : FWState :=
        if !s1.includeStale then
          { s1 with conds := addWhereCondition s1.conds "_old_rev_of" "IS" SqlVal.null }
        else s1
      if !s2.includeDeleted then
        { s2 with conds := addWhereCondition s2.conds "_rev_deleted" "=" (SqlVal.bool false) }
      else s2

/-- A chain call made on the builder before execution: the two guard
suppressors, or any predicate-adding chain method (`and`, `whereIn`,
`revisionData`, ... all funnel into `_addWhereCondition`). -/
inductive ChainOp
  | includeDeleted
  | includeStale
  | whereCond (column op : String) (v : SqlVal)
deriving DecidableEq

/-- Apply one chain call (`includeDeleted`/`includeStale` set their flag
and return `this`; predicate methods push onto the WHERE list). -/
def applyChainOp (s : FWState) (op : ChainOp) : FWState :=
  match op with
  | ChainOp.includeDeleted => { s with includeDeleted := true }
  | ChainOp.includeStale => { s with includeStale := true }
  | ChainOp.whereCond col o v => { s with conds := addWhereCondition s.conds col o v }

/-- Apply a whole method chain in order. -/
def applyChain (ops : List ChainOp) (s : FWState) : FWState :=
  ops.foldl applyChainOp s

/-- `run()` (and every other execution method — `first`, `count`,
`average`, `delete`, `sample`, `aggregateGrouped`, `chronologicalFeed` —
which all call `_ensureRevisionFilters` first): inject the guards, then
evaluate the WHERE predicates (joined with AND) over the table. -/
def runFW (s : FWState) (t : Table) : FWState × Table :=
  let s1 := ensureRevisionFilters s
  (s1, t.filter (fun r => s1.conds.all (fun c => evalCond c r)))

/-- An operator descriptor (`createOperators`): the carried value plus
the `build` closure invoked with the resolved storage column; `none`
means no predicate is contributed. -/
structure OpDescr where
  value : SqlVal
  build : String → Option Cond

/-- A string-or-array operator input. -/
inductive StrOrList
  | one (x : String)
  | many (xs : List String)
deriving DecidableEq

/-- `normalizeArrayValue`: a scalar becomes a one-element list; an array
is copied. -/
def normalizeArrayValue : StrOrList → List String
  | StrOrList.one x => [x]
  | StrOrList.many xs => xs

/-- `normalizeNonEmptyArrayValue`: rejects an empty input array with a
thrown `TypeError` before any descriptor is constructed. -/
def normalizeNonEmptyArrayValue (values : List String) :
    Except String (List String) :=
  if values.length == 0 then
    Except.error "FilterWhere ops.in requires at least one value."
  else Except.ok values

/-- `ops.containsAll`: normalize the input; the build closure returns no
predicate for an empty normalized list, otherwise an `@>` containment
predicate cast to `text[]`. -/
def containsAll (v : StrOrList) : OpDescr :=
  let normalized := normalizeArrayValue v
  { value := SqlVal.strList normalized,
    build := fun col =>
      if normalized.length == 0 then none
      else some { column := col, op := "@>", value := SqlVal.strList normalized,
                  cast := some "text[]" } }

/-- `ops.containsAny`: like `containsAll` but with the `&&` overlap
operator. -/
def containsAny (v : StrOrList) : OpDescr :=
  let normalized := normalizeArrayValue v
  { value := SqlVal.strList normalized,
    build := fun col =>
      if normalized.length == 0 then none
      else some { column := col, op := "&&", value := SqlVal.strList normalized,
                  cast := some "text[]" } }

/-- `ops.in(values, {cast?})`: `normalizeNonEmptyArrayValue` runs at the
call site, before the descriptor exists; on success the build closure
emits a `= ANY` predicate with the optional cast. -/
def opIn (values : List String) (cast : Option String := none) :
    Except String OpDescr :=
  (normalizeNonEmptyArrayValue values).map (fun normalized =>
    { value := SqlVal.strList normalized,
      build := fun col =>
        some { column := col, op := "= ANY", value := SqlVal.strList normalized,
               cast := cast } })

/-- `ops.notIn(values, {cast?})`: same normalization, emitting `!= ALL`. -/
def opNotIn (values : List String) (cast : Option String := none) :
    Except String OpDescr :=
  (normalizeNonEmptyArrayValue values).map (fun normalized =>
    { value := SqlVal.strList normalized,
      build := fun col =>
        some { column := col, op := "!= ALL", value := SqlVal.strList normalized,
               cast := cast } })

/-- An entry of a `filterWhere` literal: a plain value (equality) or an
operator descriptor. -/
inductive LitVal
  | plain (v : SqlVal)
  | opDescr (d : OpDescr)

/-- `FilterWhereBuilder._createFieldPredicate` with `mutate = true`:
plain values become `=` predicates via `_addWhereCondition`; an operator
token's build delegate appends its predicate, or nothing when it
returns null. -/
def applyEntry (conds : List Cond) (field : String) (v : LitVal) : List Cond :=
  match v with
  | LitVal.plain val => addWhereCondition conds field "=" val
  | LitVal.opDescr d =>
    match d.build field with
    | some c => conds ++ [c]
    | none => conds

/-- `Model.filterWhere(literal)` (createFilterWhereMethod): a fresh
builder with the literal applied; the revision guards are *not*
injected here. -/
def filterWhere (hasRevisions : Bool) (literal : List (String × LitVal)) :
    FWState :=
  { hasRevisions := hasRevisions,
    conds := literal.foldl (fun cs p => applyEntry cs p.1 p.2) [] }

/-- Schema field kind: which `Type` subclass (type.ts) declares the
field. -/
inductive FieldKind
  | str
  | num
  | boolean
  | date
  | arr
  | obj
deriving DecidableEq

/-- One schema field entry: logical name plus the flags carried by the
`Type` instances (`isVirtual`, `isSensitive`, `required`). -/
structure FieldDef where
  name : String
  kind : FieldKind := FieldKind.str
  isVirtual : Bool := false
  isSensitive : Bool := false
  required : Bool := false
deriving DecidableEq

/-- A registered model: table name, field schema, camelCase→storage
column mapping (`_fieldMappings`). -/
structure ModelDef where
  tableName : String
  fields : List FieldDef
  fieldMappings : List (String × String) := []
deriving DecidableEq

/-- `Model._getDbFieldName`: resolve a logical name through the
registered mapping, falling back to the name itself. -/
def getDbFieldName (m : ModelDef) (f : String) : String :=
  match m.fieldMappings.lookup f with
  | some db => db
  | none => f

/-- `Model._getFilteredColumnNames`: filter schema entries, then map to
storage column names. -/
def getFilteredColumnNames (m : ModelDef) (p : FieldDef → Bool) : List String :=
  (m.fields.filter p).map (fun f => getDbFieldName m f.name)

/-- `Model.getSafeColumnNames`: non-virtual, non-sensitive columns. -/
def getSafeColumnNames (m : ModelDef) : List String :=
  getFilteredColumnNames m (fun f => !f.isVirtual && !f.isSensitive)

/-- `Model.getColumnNames(includeSensitive)`: non-virtual columns,
sensitive ones only when explicitly opted in. -/
def getColumnNames (m : ModelDef) (includeSensitive : List String) : List String :=
  getFilteredColumnNames m
    (fun f => !f.isVirtual && !(f.isSensitive && !includeSensitive.contains f.name))

/-- One item of a rendered SELECT clause: `table.col`,
`table.col AS "alias"`, or `table.*`. -/
inductive SelectItem
  | col (table col : String)
  | aliased (table col outName : String)
  | star (table : String)
deriving DecidableEq

/-- A relation joined inline (`_simpleJoins` entry): relation name, the
registered target model, and the joined table name. -/
structure SimpleJoinEntry where
  relationName : String
  relatedModel : ModelDef
  joinTable : String
deriving DecidableEq

/-- The SELECT clause of `QueryBuilder._buildSelectQuery` when
`_select = ['*']` (the default): the main table's columns from
`getColumnNames(includeSensitive)`, and — when joins are present — each
inline-joined relation's `getSafeColumnNames()` under
`relationName_column` aliases. -/
def buildSelectItems (m : ModelDef) (includeSensitive : List String)
    (simpleJoins : List SimpleJoinEntry) : List SelectItem :=
  let columns := getColumnNames m includeSensitive
  let mainTableColumns := columns.map (fun c => SelectItem.col m.tableName c)
  if !simpleJoins.isEmpty then
    mainTableColumns ++
      (simpleJoins.map (fun j =>
        (getSafeColumnNames j.relatedModel).map (fun c =>
          SelectItem.aliased j.joinTable c (j.relationName ++ "_" ++ c)))).join
  else
    mainTableColumns

/-- Join metadata consumed by `_buildComplexJoinQuery`
(`RelationJoinInfo`). -/
structure ComplexJoinInfo where
  isThrough : Bool
  table : String
  joinTable : String := ""
  joinTableSourceColumn : String := ""
  joinTableTargetColumn : String := ""
  targetColumn : String := "id"
  hasRevisions : Bool := false
deriving DecidableEq

/-- The SELECT clause of `QueryBuilder._buildComplexJoinQuery` (the
batched query issued for a `many`-cardinality join):
`SELECT <relation>_target.*, <source-key> AS _join_source_id ...`. -/
def buildComplexJoinSelectItems (relationName : String)
    (joinInfo : ComplexJoinInfo) : List SelectItem :=
  if joinInfo.isThrough then
    [SelectItem.star (relationName ++ "_target"),
     SelectItem.aliased (relationName ++ "_through")
       joinInfo.joinTableSourceColumn "_join_source_id"]
  else
    [SelectItem.star (relationName ++ "_target"),
     SelectItem.aliased (relationName ++ "_target")
       joinInfo.targetColumn "_join_source_id"]

/-- The physical columns of a model's table (every persisted field,
sensitive or not) — what `table.*` expands to in the store. -/
def physicalColumns (m : ModelDef) : List String :=
  getFilteredColumnNames m (fun f => !f.isVirtual)

/-- The output columns one SELECT item contributes, resolving a `.*`
against the aliased table's model. -/
def itemOutputColumns (resolveAlias : String → Option ModelDef) :
    SelectItem → List String
  | SelectItem.col _ c => [c]
  | SelectItem.aliased _ _ a => [a]
  | SelectItem.star tbl =>
    match resolveAlias tbl with
    | some m => physicalColumns m
    | none => []

/-- All output columns of a SELECT clause. -/
def outputColumns (resolveAlias : String → Option ModelDef)
    (items : List SelectItem) : List String :=
  (items.map (itemOutputColumns resolveAlias)).join

/-- Query-builder state relevant to `increment`: target model, WHERE
predicates, join clause strings. -/
structure QBState where
  model : ModelDef
  conds : List Cond := []
  joins : List String := []
deriving DecidableEq

/-- The errors `QueryBuilder.increment` throws before issuing SQL. -/
inductive IncrementError
  | joinsActive
  | notNumeric (schemaField : String)
  | noSchemaMetadata (field : String)
  | noWhereClause
deriving DecidableEq

/-- The single parameterized UPDATE statement `increment` issues:
`UPDATE <table> SET <column> = <column> + $<amountParam> WHERE <conds>
[RETURNING <returningColumns>]`. -/
structure IncrementQuery where
  table : String
  column : String
  amountParam : Nat
  amount : Int
  whereConds : List Cond
  returningColumns : List String
deriving DecidableEq

/-- `increment`'s schema-field resolution: the field name itself when it
is a schema key, otherwise the first mapping entry whose storage name
matches the resolved or the raw name. -/
def findSchemaFieldName (m : ModelDef) (field dbField : String) : Option String :=
  if (m.fields.map (fun f => f.name)).contains field then some field
  else
    (m.fieldMappings.find? (fun p => p.2 == dbField || p.2 == field)).map
      (fun p => p.1)

/-- Whether a rendered basic predicate binds a positional parameter
(`IS [NOT] NULL` binds none — `_renderBasicPredicate`). -/
def bindsParam (c : Cond) : Bool :=
  !((c.op == "IS" || c.op == "IS NOT") && c.value == SqlVal.null)

/-- Number of parameters bound by the WHERE clause
(`_buildWhereClause`). -/
def whereParamCount (conds : List Cond) : Nat :=
  (conds.filter bindsParam).length

/-- `QueryBuilder.increment(field, amount, {returning?})`: refuse joined
queries, resolve the field, require numeric schema metadata, require a
non-empty WHERE clause, then render exactly one parameterized UPDATE
with `SET col = col + $n` and the resolved RETURNING columns. -/
def increment (qb : QBState) (field : String) (amount : Int)
    (returning : List String) : Except IncrementError IncrementQuery :=
  if qb.joins.length > 0 then Except.error IncrementError.joinsActive
  else
    match findSchemaFieldName qb.model field (getDbFieldName qb.model field) with
    | none => Except.error (IncrementError.noSchemaMetadata field)
    | some schemaFieldName =>
      match qb.model.fields.find? (fun f => f.name == schemaFieldName) with
      | none => Except.error (IncrementError.notNumeric schemaFieldName)
      | some fdef =>
        if fdef.kind != FieldKind.num then
          Except.error (IncrementError.notNumeric schemaFieldName)
        else if qb.conds.isEmpty then Except.error IncrementError.noWhereClause
        else
          Except.ok
            { table := qb.model.tableName,
              column := getDbFieldName qb.model field,
              amountParam := whereParamCount qb.conds + 1,
              amount := amount,
              whereConds := qb.conds,
              returningColumns := returning.map (getDbFieldName qb.model) }

/-- The exact UPDATE description `increment` produces on success. -/
def incrementOkQuery (qb : QBState) (field : String) (amount : Int)
    (returning : List String) : IncrementQuery :=
  { table := qb.model.tableName,
    column := getDbFieldName qb.model field,
    amountParam := whereParamCount qb.conds + 1,
    amount := amount,
    whereConds := qb.conds,
    returningColumns := returning.map (getDbFieldName qb.model) }

/-- `remapRowToCamelCase` (model-registry.ts): map a storage-keyed
result row back to logical (camelCase) keys through the reversed field
mapping.  The JS `Map` keeps the last entry for a duplicated storage
name, hence the `reverse` before the first-match lookup. -/
def remapRowToCamelCase (row : List (String × SqlVal))
    (fieldMappings : List (String × String)) : List (String × SqlVal) :=
  if fieldMappings.isEmpty then row
  else
    let reverseMapping := (fieldMappings.map (fun p => (p.2, p.1))).reverse
    row.map (fun kv =>
      match reverseMapping.lookup kv.1 with
      | some camel => (camel, kv.2)
      | none => kv)

/-- The rows `increment` returns: RETURNING rows remapped to logical
names, or an empty list when no RETURNING columns were requested. -/
def incrementResultRows (storageRows : List (List (String × SqlVal)))
    (returning : List String) (fieldMappings : List (String × String)) :
    List (List (String × SqlVal)) :=
  if returning.length > 0 then
    storageRows.map (fun row => remapRowToCamelCase row fieldMappings)
  else []

/-- Concrete joined target model with a sensitive column, for
witnesses. -/
def usersModel : ModelDef :=
  { tableName := "users",
    fields := [{ name := "id" }, { name := "name" },
      { name := "password", isSensitive := true }] }

/-- Concrete teams model with a sensitive column, for the batched-join
counterexample. -/
def teamsModel : ModelDef :=
  { tableName := "teams",
    fields := [{ name := "id" }, { name := "name" },
      { name := "password", isSensitive := true }] }

/-- Concrete main model for witnesses. -/
def reviewsModel : ModelDef :=
  { tableName := "reviews", fields := [{ name := "id" }, { name := "title" }] }

/-- Concrete inline join entry for witnesses. -/
def creatorJoin : SimpleJoinEntry :=
  { relationName := "creator", relatedModel := usersModel, joinTable := "users" }

/-- Concrete batched-join metadata (direct `many` relation). -/
def teamsJoinInfo : ComplexJoinInfo :=
  { isThrough := false, table := "teams", targetColumn := "id" }

/-- Concrete counters model for the increment witnesses. -/
def countersModel : ModelDef :=
  { tableName := "counters",
    fields := [{ name := "id" }, { name := "counter", kind := FieldKind.num }] }

/-- Concrete posts model (no numeric field) for the increment
witnesses. -/
def postsModel : ModelDef :=
  { tableName := "posts", fields := [{ name := "id" }, { name := "title" }] }

/-- Counters builder with a predicate applied (`id = 'user-1'`). -/
def countersQB : QBState :=
  { model := countersModel,
    conds := [{ column := "id", op := "=", value := SqlVal.str "user-1" }] }

/-- Posts builder with a predicate applied. -/
def postsQB : QBState :=
  { model := postsModel,
    conds := [{ column := "id", op := "=", value := SqlVal.str "p1" }] }

/-- Counters builder with an active join. -/
def joinedQB : QBState :=
  { model := countersModel,
    conds := [{ column := "id", op := "=", value := SqlVal.str "user-1" }],
    joins := ["LEFT JOIN users ON users.id = counters.id"] }

/-- A JS error value at the save boundary: `name`, `message`, the
`code` discriminant (vendor code for storage errors, the DAL's own code
for taxonomy errors), the `PostgresError` extras, and — for a
`QueryError` — the name of the wrapped `originalError`. -/
structure ErrObj where
  name : String
  message : String
  code : Option String := none
  detail : Option String := none
  constraint : Option String := none
  column : Option String := none
  originalName : Option String := none
deriving DecidableEq

/-- A `ValidationError` as thrown by the schema validators (type.ts):
name `ValidationError`, code `VALIDATION_ERROR`. -/
def mkValidationError (msg : String) : ErrObj :=
  { name := "ValidationError", message := msg, code := some "VALIDATION_ERROR" }

/-- `convertPostgreSQLError` (errors.ts): the single mapping keyed on
the error object's `code`; anything not matching a vendor case is
wrapped in a generic `QueryError`.  (The guard for non-object input is
not modelled: every error reaching this point is an object with a
string message.) -/
def convertPostgreSQLError (e : ErrObj) : ErrObj :=
  let code := e.code.getD ""
  if code == "23505" then
    { name := "ConstraintError",
      message := "Unique constraint violation: " ++ (e.detail.getD e.message),
      code := some "CONSTRAINT_ERROR", constraint := e.constraint }
  else if code == "23503" then
    { name := "ConstraintError",
      message := "Foreign key constraint violation: " ++ (e.detail.getD e.message),
      code := some "CONSTRAINT_ERROR", constraint := e.constraint }
  else if code == "23502" then
    { name := "ValidationError",
      message := "Not null constraint violation: " ++ (e.column.getD e.message),
      code := some "VALIDATION_ERROR", column := e.column }
  else if code == "23514" then
    { name := "ValidationError",
      message := "Check constraint violation: " ++ (e.detail.getD e.message),
      code := some "VALIDATION_ERROR", column := e.constraint }
  else if code == "08000" || code == "08003" || code == "08006" then
    { name := "ConnectionError", message := e.message,
      code := some "CONNECTION_ERROR" }
  else if code == "42P01" then
    { name := "QueryError", message := "Table does not exist: " ++ e.message,
      code := some "QUERY_ERROR", originalName := some e.name }
  else if code == "42703" then
    { name := "QueryError", message := "Column does not exist: " ++ e.message,
      code := some "QUERY_ERROR", originalName := some e.name }
  else
    { name := "QueryError", message := e.message,
      code := some "QUERY_ERROR", originalName := some e.name }

/-- Null-or-undefined check used by the schema validators. -/
def isNullish : Option SqlVal → Bool
  | none => true
  | some SqlVal.null => true
  | some _ => false

/-- The `validate` function of a schema field (type.ts): required check
first, then the per-kind type check; kinds whose checks the claims do
not exercise accept any value. -/
def validateFieldValue (f : FieldDef) (v : Option SqlVal) : Except ErrObj Unit :=
  if isNullish v then
    if f.required then Except.error (mkValidationError (f.name ++ " is required"))
    else Except.ok ()
  else
    match f.kind, v with
    | FieldKind.num, some (SqlVal.num _) => Except.ok ()
    | FieldKind.num, _ =>
      Except.error (mkValidationError (f.name ++ " must be a finite number"))
    | FieldKind.str, some (SqlVal.str _) => Except.ok ()
    | FieldKind.str, _ =>
      Except.error (mkValidationError (f.name ++ " must be a string"))
    | FieldKind.boolean, some (SqlVal.bool _) => Except.ok ()
    | FieldKind.boolean, _ =>
      Except.error (mkValidationError (f.name ++ " must be a boolean"))
    | _, _ => Except.ok ()

/-- One step of `Model._validate`'s field loop: propagate an earlier
throw, skip virtual fields, validate the field's current value. -/
def validateStep (m : ModelDef) (data : List (String × SqlVal))
    (acc : Except ErrObj Unit) (f : FieldDef) : Except ErrObj Unit :=
  match acc with
  | Except.error e => Except.error e
  | Except.ok _ =>
    if f.isVirtual then Except.ok ()
    else validateFieldValue f (data.lookup (getDbFieldName m f.name))

/-- `Model._validate`: run every declared non-virtual field's validator
against the instance's current value; the first throw aborts the save.
(The value-normalization write-back does not affect the error path.) -/
def validateInstance (m : ModelDef) (data : List (String × SqlVal)) :
    Except ErrObj Unit :=
  m.fields.foldl (validateStep m data) (Except.ok ())

/-- `Model.save`: `_validate` (after in-place change detection), then
the INSERT/UPDATE against storage; any error is re-thrown through
`convertPostgreSQLError`.  The boolean records whether a query was
issued. -/
def modelSave (m : ModelDef) (data : List (String × SqlVal))
    (storage : Except ErrObj Unit) : Except ErrObj Unit × Bool :=
  match validateInstance m data with
  | Except.error e => (Except.error (convertPostgreSQLError e), false)
  | Except.ok _ =>
    match storage with
    | Except.ok _ => (Except.ok (), true)
    | Except.error e => (Except.error (convertPostgreSQLError e), true)

/-- A junction (`through`) spec, normalized. -/
structure ThroughSpec where
  table : String
  sourceColumn : String
  targetColumn : String
deriving DecidableEq

/-- A normalized relation config as consumed by `loadManyRelated` /
`addManyRelated` (model.ts). -/
structure RelationConfig where
  name : String
  targetTable : String
  targetColumn : Option String := none
  targetModelKey : Option String := none
  hasRevisions : Bool := false
  through : Option ThroughSpec := none
  joinType : Option String := none
deriving DecidableEq

/-- Errors `loadManyRelated` throws. -/
inductive LoadError
  | relationNotFound (relationName : String) (available : List String)
  | targetModelNotFound (key : String)
deriving DecidableEq

/-- What `loadManyRelated` does: return an empty map without querying,
or issue one batched query (junction join, or direct), with revision
guards appended for revision-tracked targets. -/
inductive LoadAction
  | emptyMap
  | throughQuery (junctionTable junctionSourceColumn junctionTargetColumn
      targetTable targetColumn : String) (ids : List String)
      (revisionGuards : Bool)
  | directQuery (targetTable targetColumn : String) (ids : List String)
      (revisionGuards : Bool)
deriving DecidableEq

/-- Input id list normalization shared by both helpers: drop non-string
/ empty ids, then dedup keeping first occurrences (`[...new Set(...)]`). -/
def dedupIds (ids : List String) : List String :=
  (ids.filter (fun s => s.length > 0)).eraseDups

/-- `Model.loadManyRelated(relationName, sourceIds)`: empty input short
circuits; an unknown relation throws naming the available relations; a
`through` relation batches via the junction table; otherwise a *direct*
one-to-many query is issued. -/
def loadManyRelated (relations : List RelationConfig) (registered : List String)
    (relationName : String) (sourceIds : List String) :
    Except LoadError LoadAction :=
  let uniqueIds := dedupIds sourceIds
  if uniqueIds.isEmpty then Except.ok LoadAction.emptyMap
  else
    match relations.find? (fun rc => rc.name == relationName) with
    | none =>
      Except.error (LoadError.relationNotFound relationName
        (relations.map (fun rc => rc.name)))
    | some rc =>
      if !registered.contains (rc.targetModelKey.getD rc.targetTable) then
        Except.error (LoadError.targetModelNotFound
          (rc.targetModelKey.getD rc.targetTable))
      else
        match rc.through with
        | some th =>
          if rc.joinType == some "through" then
            Except.ok (LoadAction.throughQuery th.table th.sourceColumn
              th.targetColumn rc.targetTable (rc.targetColumn.getD "id")
              uniqueIds rc.hasRevisions)
          else
            Except.ok (LoadAction.directQuery rc.targetTable
              (rc.targetColumn.getD "id") uniqueIds rc.hasRevisions)
        | none =>
          Except.ok (LoadAction.directQuery rc.targetTable
            (rc.targetColumn.getD "id") uniqueIds rc.hasRevisions)

/-- Errors `addManyRelated` throws. -/
inductive AddError
  | invalidSourceId
  | relationNotFound (relationName : String) (available : List String)
  | notJunction (relationName : String)
deriving DecidableEq

/-- What `addManyRelated` does: return without querying, or issue one
batched junction INSERT. -/
inductive AddAction
  | noop
  | insertQuery (junctionTable sourceColumn targetColumn : String)
      (pairs : List (String × String)) (onConflictDoNothing : Bool)
deriving DecidableEq

/-- `Model.addManyRelated(relationName, sourceId, targetIds, {onConflict})`:
validates the source id, short-circuits on empty targets, rejects
unknown relations (naming the available ones) and relations without a
`through` junction spec, then issues one batched junction INSERT with
`ON CONFLICT DO NOTHING` unless `onConflict: 'error'`. -/
def addManyRelated (relations : List RelationConfig)
    (relationName sourceId : String) (targetIds : List String)
    (onConflict : String) : Except AddError AddAction :=
  if sourceId.length == 0 then Except.error AddError.invalidSourceId
  else
    let uniqueIds := dedupIds targetIds
    if uniqueIds.isEmpty then Except.ok AddAction.noop
    else
      match relations.find? (fun rc => rc.name == relationName) with
      | none =>
        Except.error (AddError.relationNotFound relationName
          (relations.map (fun rc => rc.name)))
      | some rc =>
        match rc.through with
        | some th =>
          if rc.joinType == some "through" then
            Except.ok (AddAction.insertQuery th.table th.sourceColumn
              th.targetColumn (uniqueIds.map (fun tid => (sourceId, tid)))
              (onConflict != "error"))
          else Except.error (AddError.notJunction relationName)
        | none => Except.error (AddError.notJunction relationName)

/-- Concrete direct (non-junction) relation for the C8 witnesses. -/
def authorRelation : RelationConfig :=
  { name := "author", targetTable := "users" }

/-- A concrete vendor unique-violation error (code 23505). -/
def dupConstraintError : ErrObj :=
  { name := "error", message := "dup", code := some "23505",
    constraint := some "uq" }

/-- Concrete v4-UUID-shaped ids used for witnesses. -/
def uuidA : String := "11111111-1111-4111-8111-111111111111"

/-- A second concrete v4-UUID-shaped id. -/
def uuidB : String := "22222222-2222-4222-8222-222222222222"

/-- A third concrete v4-UUID-shaped id. -/
def uuidC : String := "33333333-3333-4333-8333-333333333333"

/-- Concrete first-revision Live row used for witnesses. -/
def docRowA : Row :=
  { id := uuidA, revId := "r1", revUser := "u1", revTags := ["create"], title := "A" }

/-- Concrete edit cycle used for witnesses. -/
def editCycleB : Cycle :=
  { newPhysId := uuidB, user := "u1", date := 1, tags := ["edit"],
    newRevId := "r2", newTitle := "B" }

theorem countBy_append (t₁ t₂ : Table) (p : Row → Bool) :
    countBy (t₁ ++ t₂) p = countBy t₁ p + countBy t₂ p := by
  simp [countBy, List.filter_append]

theorem countBy_cons (a : Row) (l : Table) (p : Row → Bool) :
    countBy (a :: l) p = (if p a then 1 else 0) + countBy l p := by
  cases h : p a <;> simp [countBy, List.filter_cons, h, Nat.add_comm]

theorem countBy_congr (t : Table) (p q : Row → Bool)
    (h : ∀ r ∈ t, p r = q r) : countBy t p = countBy t q := by
  induction t with
  | nil => rfl
  | cons a l ih =>
    have ih' := ih (fun r hr => h r (List.mem_cons_of_mem a hr))
    rw [countBy_cons, countBy_cons, ih', h a (List.mem_cons_self a l)]

theorem countBy_saveUpdate (t : Table) (inst : Row) (p : Row → Bool)
    (h : ∀ r ∈ t, r.id = inst.id → p r = p inst) :
    countBy (saveUpdate t inst) p = countBy t p := by
  induction t with
  | nil => rfl
  | cons a l ih =>
    have ih' := ih (fun r hr => h r (List.mem_cons_of_mem a hr))
    have hstep : saveUpdate (a :: l) inst
        = (if a.id == inst.id then inst else a) :: saveUpdate l inst := rfl
    rw [hstep, countBy_cons, countBy_cons, ih']
    by_cases hid : a.id = inst.id
    · have hpa := h a (List.mem_cons_self a l) hid
      have hrw : (if (a.id == inst.id) = true then inst else a) = inst := by simp [hid]
      rw [hrw, hpa]
    · have hrw : (if (a.id == inst.id) = true then inst else a) = a := by simp [hid]
      rw [hrw]

theorem mem_saveUpdate (t : Table) (inst r : Row)
    (hr : r ∈ saveUpdate t inst) :
    (∃ x ∈ t, x.id ≠ inst.id ∧ r = x) ∨ r = inst := by
  simp only [saveUpdate, List.mem_map] at hr
  obtain ⟨x, hx, hfx⟩ := hr
  by_cases hid : x.id = inst.id
  · right
    rw [← hfx, if_pos (by simp [hid])]
  · left
    exact ⟨x, hx, hid, by rw [← hfx, if_neg (by simp [hid])]⟩

/-- Archive-then-restamp step, abstracted: counting facts about
appending an archived copy (fresh physical id, archived-marker set to
the logical id) and then saving an instance carrying the logical id. -/
theorem archive_save_core (lid : String) (t : Table) (inst : Row) (k : Nat)
    (copy saved : Row) (hinv : DocInv lid t inst k)
    (hcopyId : copy.id ≠ lid) (hcopyArch : copy.oldRevOf = some lid)
    (hsid : saved.id = lid) (hsold : saved.oldRevOf = none) :
    countBy (saveUpdate (t ++ [copy]) saved) (fun r => r.id == lid) = 1 ∧
    countBy (saveUpdate (t ++ [copy]) saved) (isArchivedFor lid) = k + 1 ∧
    (∀ r ∈ saveUpdate (t ++ [copy]) saved, r.id = lid → r = saved) := by
  obtain ⟨hid, hold, hdel, hcount, hmem, harch⟩ := hinv
  have hmem' : ∀ r ∈ t ++ [copy], r.id = lid → r = inst ∨ r = copy := by
    intro r hr hrid
    rcases List.mem_append.mp hr with hrt | hrc
    · exact Or.inl (hmem r hrt hrid)
    · exact Or.inr (by simpa using hrc)
  refine ⟨?_, ?_, ?_⟩
  · rw [countBy_saveUpdate]
    · rw [countBy_append, hcount]
      simp [countBy, hcopyId]
    · intro r _ hrid
      rw [hsid] at hrid
      simp [hrid, hsid]
  · rw [countBy_saveUpdate]
    · rw [countBy_append, harch]
      simp [countBy, isArchivedFor, hcopyArch]
    · intro r hrt hrid
      rw [hsid] at hrid
      rcases hmem' r hrt hrid with hre | hre
      · rw [hre]
        simp [isArchivedFor, hold, hsold]
      · exact absurd (by rw [← hre, hrid]) hcopyId
  · intro r hr hrid
    rcases mem_saveUpdate _ _ _ hr with ⟨x, _, hxid, hrx⟩ | hre
    · exact absurd (by rw [← hrx, hrid, hsid]) hxid
    · exact hre

/-- Archive-then-restamp preserves the document invariant when the saved
instance is Live-shaped. -/
theorem archive_save_inv (lid : String) (t : Table) (inst : Row) (k : Nat)
    (copy edited : Row) (hinv : DocInv lid t inst k)
    (hcopyId : copy.id ≠ lid) (hcopyArch : copy.oldRevOf = some lid)
    (heid : edited.id = lid) (heold : edited.oldRevOf = none)
    (hedel : edited.revDeleted = false) :
    DocInv lid (saveUpdate (t ++ [copy]) edited) edited (k + 1) := by
  obtain ⟨h1, h2, h3⟩ :=
    archive_save_core lid t inst k copy edited hinv hcopyId hcopyArch heid heold
  exact ⟨heid, heold, hedel, h1, h3, h2⟩

/-- One cycle preserves the invariant, raising the archived count by one,
provided the storage-assigned physical id differs from the logical id. -/
theorem newRevisionCycle_inv (lid : String) (t : Table) (inst : Row)
    (k : Nat) (c : Cycle) (hinv : DocInv lid t inst k)
    (hfresh : c.newPhysId ≠ lid) :
    DocInv lid (newRevisionCycle (t, inst) c).1 (newRevisionCycle (t, inst) c).2 (k + 1) := by
  have hid := hinv.1
  have hold := hinv.2.1
  have hdel := hinv.2.2.1
  exact archive_save_inv lid t inst k
    { inst with id := c.newPhysId, oldRevOf := some inst.id }
    { applyRevisionMetadata inst c.user c.date c.tags c.newRevId with title := c.newTitle }
    hinv (by simpa using hfresh) (by simp [hid])
    (by simp [applyRevisionMetadata, hid]) (by simp [applyRevisionMetadata, hold])
    (by simp [applyRevisionMetadata, hdel])

/-- The invariant propagates through any list of cycles whose
storage-assigned physical ids differ from the logical id. -/
theorem runCycles_inv (lid : String) (cs : List Cycle) :
    ∀ (t : Table) (inst : Row) (k : Nat), DocInv lid t inst k →
    (∀ c ∈ cs, c.newPhysId ≠ lid) →
    DocInv lid (runCycles (t, inst) cs).1 (runCycles (t, inst) cs).2 (k + cs.length) := by
  induction cs with
  | nil => intro t inst k h _; simpa [runCycles] using h
  | cons c cs ih =>
    intro t inst k h hfresh
    have hstep := newRevisionCycle_inv lid t inst k c h (hfresh c (by simp))
    have hrest := ih (newRevisionCycle (t, inst) c).1 (newRevisionCycle (t, inst) c).2 (k + 1)
      hstep (fun d hd => hfresh d (by simp [hd]))
    have hfold : runCycles (t, inst) (c :: cs) =
        runCycles ((newRevisionCycle (t, inst) c).1, (newRevisionCycle (t, inst) c).2) cs := by
      simp [runCycles]
    rw [hfold]
    have : k + 1 + cs.length = k + (cs.length + 1) := by omega
    rw [this] at hrest
    exact hrest

theorem countBy_disjoint_or (t : Table) (p q : Row → Bool)
    (h : ∀ r ∈ t, ¬(p r = true ∧ q r = true)) :
    countBy t (fun r => p r || q r) = countBy t p + countBy t q := by
  induction t with
  | nil => rfl
  | cons a l ih =>
    have ha := h a (by simp)
    have ih' := ih (fun r hr => h r (by simp [hr]))
    simp only [countBy, List.filter] at *
    cases hp : p a <;> cases hq : q a <;> simp_all <;> omega

/-- Consequences of the invariant: the Live/Archived/total row counts for
the logical document. -/
theorem docInv_counts (lid : String) (t : Table) (inst : Row) (k : Nat)
    (h : DocInv lid t inst k) :
    countBy t (isLiveFor lid) = 1 ∧ countBy t (isArchivedFor lid) = k ∧
    countBy t (belongsTo lid) = k + 1 := by
  obtain ⟨hid, hold, hdel, hcount, hmem, harch⟩ := h
  have hlive : countBy t (isLiveFor lid) = countBy t (fun r => r.id == lid) := by
    apply countBy_congr
    intro r hr
    by_cases hrid : r.id = lid
    · have hre : r = inst := hmem r hr hrid
      simp [isLiveFor, hre, hid, hold, hdel]
    · have hfalse : (r.id == lid) = false := by simp [hrid]
      simp [isLiveFor, hfalse]
  have hbelongs : countBy t (belongsTo lid) =
      countBy t (fun r => r.id == lid) + countBy t (isArchivedFor lid) := by
    have := countBy_disjoint_or t (fun r => r.id == lid) (isArchivedFor lid) ?_
    · simpa [belongsTo, isArchivedFor] using this
    · intro r hr ⟨h1, h2⟩
      have hrid : r.id = lid := by simpa using h1
      have hre : r = inst := hmem r hr hrid
      rw [hre] at h2
      simp [isArchivedFor, hold] at h2
  refine ⟨by rw [hlive, hcount], harch, by omega⟩

theorem countBy_map_pres (t : Table) (g : Row → Row) (p : Row → Bool)
    (h : ∀ x ∈ t, p (g x) = p x) : countBy (t.map g) p = countBy t p := by
  induction t with
  | nil => rfl
  | cons a l ih =>
    rw [List.map_cons, countBy_cons, countBy_cons, h a (List.mem_cons_self a l),
      ih (fun r hr => h r (List.mem_cons_of_mem a hr))]

theorem find?_of_countBy_pos (t : Table) (p : Row → Bool)
    (h : 0 < countBy t p) : ∃ r, t.find? p = some r := by
  induction t with
  | nil => simp [countBy] at h
  | cons a l ih =>
    by_cases hp : p a
    · exact ⟨a, List.find?_cons_of_pos l hp⟩
    · rw [countBy_cons, if_neg (by simp [hp])] at h
      obtain ⟨r, hr⟩ := ih (by omega)
      exact ⟨r, by rw [List.find?_cons_of_neg l (by simp [hp]), hr]⟩

/-- C1: after the first revision of a logical document has been saved
(one Live row), each successful `newRevision(user,{tags})`+`save()`
cycle inserts exactly one new physical row (archived copy, id stripped,
archived-marker set to the logical id) and re-stamps the original row in
place; after the initial save plus `cs.length` further cycles — N =
`cs.length + 1` revisions in total — exactly one physical row is Live
(`_old_rev_of` null, `_rev_deleted` false), exactly N - 1 rows carry the
logical id as archived-marker, and the total row count for the logical
id is N. -/
theorem newRevision_save_cycles_invariant (lid : String) (firstRow : Row)
    (cs : List Cycle) (hfirst : DocInv lid [firstRow] firstRow 0)
    (hfresh : ∀ c ∈ cs, c.newPhysId ≠ lid) :
    countBy (runCycles ([firstRow], firstRow) cs).1 (isLiveFor lid) = 1 ∧
    countBy (runCycles ([firstRow], firstRow) cs).1 (isArchivedFor lid) = cs.length ∧
    countBy (runCycles ([firstRow], firstRow) cs).1 (belongsTo lid) = cs.length + 1 ∧
    (∀ (s : Table × Row) (c : Cycle),
      ((newRevisionCycle s c).1).length = s.1.length + 1 ∧
      (newRevisionCycle s c).2.id = s.2.id ∧
      (newRevisionCycle s c).2.revId = c.newRevId) := by
  have hinv := runCycles_inv lid cs [firstRow] firstRow 0 hfirst hfresh
  obtain ⟨hlive, harch, hbel⟩ := docInv_counts lid _ _ _ hinv
  refine ⟨hlive, by simpa using harch, by simpa using hbel, ?_⟩
  intro s c
  refine ⟨?_, rfl, rfl⟩
  simp [newRevisionCycle, newRevision, saveUpdate]

theorem newRevision_save_cycles_invariant_witness :
    countBy (runCycles ([docRowA], docRowA) [editCycleB]).1 (isLiveFor uuidA) = 1 ∧
    countBy (runCycles ([docRowA], docRowA) [editCycleB]).1 (isArchivedFor uuidA) = 1 ∧
    countBy (runCycles ([docRowA], docRowA) [editCycleB]).1 (belongsTo uuidA) = 2 := by
  have h := newRevision_save_cycles_invariant uuidA docRowA [editCycleB]
    (by decide) (by decide)
  exact ⟨h.1, h.2.1, h.2.2.1⟩

theorem getNotStaleOrDeleted_deleted_of (t : Table) (i : String)
    (hu : isUUIDv4 i = true) (r : Row) (hf : firstById t i = some r)
    (hd : r.revDeleted = true) :
    getNotStaleOrDeleted t i = GetResult.deleted := by
  unfold getNotStaleOrDeleted
  rw [hu, hf]
  simp [hd]

/-- C2: `deleteAllRevisions(user,{tags})` creates one more revision
tagged `['delete', ...tags]`, marks it deleted, saves it, then updates
every row whose `_old_rev_of` equals the logical id to
`_rev_deleted = true` and returns the deletion revision; afterwards
every physical row sharing the logical id is deleted and a guarded read
of the id yields the named "deleted" error. -/
theorem deleteAllRevisions_deletion_invariant (lid : String) (t : Table)
    (inst : Row) (k : Nat) (newPhysId user newRevId : String) (date : Nat)
    (tags : List String) (hinv : DocInv lid t inst k)
    (hfresh : newPhysId ≠ lid) (huuid : isUUIDv4 lid = true) :
    (deleteAllRevisions t inst newPhysId user date tags newRevId).2.revTags
        = "delete" :: tags ∧
    (deleteAllRevisions t inst newPhysId user date tags newRevId).2.revDeleted = true ∧
    (∀ r ∈ (deleteAllRevisions t inst newPhysId user date tags newRevId).1,
        belongsTo lid r = true → r.revDeleted = true) ∧
    countBy (deleteAllRevisions t inst newPhysId user date tags newRevId).1
        (belongsTo lid) = k + 2 ∧
    getNotStaleOrDeleted (deleteAllRevisions t inst newPhysId user date tags newRevId).1
        lid = GetResult.deleted := by
  have hid := hinv.1
  have hold := hinv.2.1
  have hcore := archive_save_core lid t inst k
    { inst with id := newPhysId, oldRevOf := some inst.id }
    { applyRevisionMetadata inst user date ("delete" :: tags) newRevId with
        revDeleted := true }
    hinv (by simpa using hfresh) (by simp [hid])
    (by simp [applyRevisionMetadata, hid]) (by simp [applyRevisionMetadata, hold])
  obtain ⟨hcnt1, hcnt2, hmem2⟩ := hcore
  have hres : deleteAllRevisions t inst newPhysId user date tags newRevId =
      ((saveUpdate (t ++ [{ inst with id := newPhysId, oldRevOf := some inst.id }])
          { applyRevisionMetadata inst user date ("delete" :: tags) newRevId with
              revDeleted := true }).map
        (fun r => if r.oldRevOf == some inst.id then { r with revDeleted := true } else r),
       { applyRevisionMetadata inst user date ("delete" :: tags) newRevId with
           revDeleted := true }) := rfl
  rw [hres]
  have hgbel : ∀ x : Row,
      belongsTo lid
        ((if x.oldRevOf == some inst.id then { x with revDeleted := true } else x) : Row)
        = belongsTo lid x := by
    intro x
    by_cases hx : (x.oldRevOf == some inst.id) = true <;> simp [belongsTo, hx]
  have hgid : ∀ x : Row,
      (((if x.oldRevOf == some inst.id then { x with revDeleted := true } else x) : Row).id
        == lid) = (x.id == lid) := by
    intro x
    by_cases hx : (x.oldRevOf == some inst.id) = true <;> simp [hx]
  have hdeletedAll : ∀ r ∈ (saveUpdate
        (t ++ [{ inst with id := newPhysId, oldRevOf := some inst.id }])
        { applyRevisionMetadata inst user date ("delete" :: tags) newRevId with
            revDeleted := true }).map
      (fun r => if r.oldRevOf == some inst.id then { r with revDeleted := true } else r),
      belongsTo lid r = true → r.revDeleted = true := by
    intro r hr hbel
    obtain ⟨x, hx, hgx⟩ := List.mem_map.mp hr
    by_cases harc : (x.oldRevOf == some inst.id) = true
    · rw [← hgx, if_pos harc]
    · rw [← hgx, if_neg harc] at hbel ⊢
      have hbel' : x.id = lid ∨ x.oldRevOf = some lid := by
        simpa [belongsTo] using hbel
      have hxid : x.id = lid := by
        rcases hbel' with h1 | h1
        · exact h1
        · exact absurd (by simp [h1, hid] : (x.oldRevOf == some inst.id) = true) harc
      have hx2 := hmem2 x hx hxid
      rw [hx2]
  have hcnt3 : countBy ((saveUpdate
        (t ++ [{ inst with id := newPhysId, oldRevOf := some inst.id }])
        { applyRevisionMetadata inst user date ("delete" :: tags) newRevId with
            revDeleted := true }).map
      (fun r => if r.oldRevOf == some inst.id then { r with revDeleted := true } else r))
      (belongsTo lid) = k + 2 := by
    rw [countBy_map_pres _ _ _ (fun x _ => hgbel x)]
    have hdisj := countBy_disjoint_or
      (saveUpdate (t ++ [{ inst with id := newPhysId, oldRevOf := some inst.id }])
        { applyRevisionMetadata inst user date ("delete" :: tags) newRevId with
            revDeleted := true })
      (fun r => r.id == lid) (isArchivedFor lid) ?_
    · have : countBy (saveUpdate
          (t ++ [{ inst with id := newPhysId, oldRevOf := some inst.id }])
          { applyRevisionMetadata inst user date ("delete" :: tags) newRevId with
              revDeleted := true }) (belongsTo lid) =
          countBy (saveUpdate
          (t ++ [{ inst with id := newPhysId, oldRevOf := some inst.id }])
          { applyRevisionMetadata inst user date ("delete" :: tags) newRevId with
              revDeleted := true }) (fun r => (r.id == lid) || isArchivedFor lid r) := rfl
      rw [this, hdisj, hcnt1, hcnt2]
      omega
    · intro r hr ⟨h1, h2⟩
      have hrid : r.id = lid := by simpa using h1
      have hre := hmem2 r hr hrid
      rw [hre] at h2
      simp [isArchivedFor, applyRevisionMetadata, hold] at h2
  have hcntId : countBy ((saveUpdate
        (t ++ [{ inst with id := newPhysId, oldRevOf := some inst.id }])
        { applyRevisionMetadata inst user date ("delete" :: tags) newRevId with
            revDeleted := true }).map
      (fun r => if r.oldRevOf == some inst.id then { r with revDeleted := true } else r))
      (fun r => r.id == lid) = 1 := by
    rw [countBy_map_pres _ _ _ (fun x _ => hgid x), hcnt1]
  refine ⟨rfl, rfl, hdeletedAll, hcnt3, ?_⟩
  obtain ⟨r, hfind⟩ := find?_of_countBy_pos _ _ (by rw [hcntId]; omega)
  have hrid : r.id = lid := by simpa using List.find?_some hfind
  have hrmem := List.mem_of_find?_eq_some hfind
  have hrdel : r.revDeleted = true :=
    hdeletedAll r hrmem (by simp [belongsTo, hrid])
  exact getNotStaleOrDeleted_deleted_of _ _ huuid r hfind hrdel

theorem deleteAllRevisions_deletion_invariant_witness :
    (deleteAllRevisions [docRowA] docRowA uuidB "u1" 2 ["cleanup"] "r3").2.revTags
        = ["delete", "cleanup"] ∧
    getNotStaleOrDeleted (deleteAllRevisions [docRowA] docRowA uuidB "u1" 2
        ["cleanup"] "r3").1 uuidA = GetResult.deleted := by
  have h := deleteAllRevisions_deletion_invariant uuidA [docRowA] docRowA 0
    uuidB "u1" "r3" 2 ["cleanup"] (by decide) (by decide) (by decide)
  exact ⟨h.1, h.2.2.2.2⟩

/-- C4: `getNotStaleOrDeleted(id)` yields the invalid-UUID error for a
non-UUID-shaped id independently of the stored data (no query is
consulted); for a well-formed id it classifies the unguarded fetch: no
row → DocumentNotFound, deleted flag → the "deleted" error, archived
marker → the "stale" error, otherwise the Live row is returned. -/
theorem getNotStaleOrDeleted_classification :
    (∀ (t : Table) (i : String), isUUIDv4 i = false →
        getNotStaleOrDeleted t i = GetResult.invalidUUID) ∧
    (∀ (t : Table) (i : String), isUUIDv4 i = true →
      (firstById t i = none → getNotStaleOrDeleted t i = GetResult.notFound) ∧
      (∀ r, firstById t i = some r →
        getNotStaleOrDeleted t i =
          (if r.revDeleted then GetResult.deleted
           else if r.oldRevOf.isSome then GetResult.stale
           else GetResult.ok r))) ∧
    (∀ (t : Table) (i : String) (r : Row),
        getNotStaleOrDeleted t i = GetResult.ok r →
        r ∈ t ∧ r.id = i ∧ r.oldRevOf = none ∧ r.revDeleted = false) := by
  refine ⟨?_, ?_, ?_⟩
  · intro t i h
    simp [getNotStaleOrDeleted, h]
  · intro t i h
    constructor
    · intro hnone
      simp [getNotStaleOrDeleted, h, hnone]
    · intro r hr
      simp [getNotStaleOrDeleted, h, hr]
  · intro t i r h
    by_cases hu : isUUIDv4 i
    · cases hf : firstById t i with
      | none => simp [getNotStaleOrDeleted, hu, hf] at h
      | some d =>
        by_cases hd : d.revDeleted <;> by_cases ho : d.oldRevOf.isSome <;>
          simp [getNotStaleOrDeleted, hu, hf, hd, ho] at h
        have hdr : d = r := h
        have hdid : d.id = i := by simpa using List.find?_some hf
        have hdmem : d ∈ t := List.mem_of_find?_eq_some hf
        rw [← hdr]
        exact ⟨hdmem, hdid, Option.not_isSome_iff_eq_none.mp (by simp [ho]),
          by simp [hd]⟩
    · simp [getNotStaleOrDeleted, hu] at h

theorem getNotStaleOrDeleted_classification_witness :
    getNotStaleOrDeleted [docRowA] "not-a-uuid" = GetResult.invalidUUID ∧
    (docRowA ∈ [docRowA] ∧ docRowA.id = uuidA ∧ docRowA.oldRevOf = none ∧
      docRowA.revDeleted = false) := by
  refine ⟨getNotStaleOrDeleted_classification.1 [docRowA] "not-a-uuid" (by decide), ?_⟩
  exact getNotStaleOrDeleted_classification.2.2 [docRowA] uuidA docRowA (by decide)

theorem applyChain_flags (ops : List ChainOp) : ∀ s : FWState,
    (applyChain ops s).hasRevisions = s.hasRevisions ∧
    (applyChain ops s).revisionFiltersApplied = s.revisionFiltersApplied ∧
    (applyChain ops s).includeStale
      = (s.includeStale || ops.contains ChainOp.includeStale) ∧
    (applyChain ops s).includeDeleted
      = (s.includeDeleted || ops.contains ChainOp.includeDeleted) := by
  induction ops with
  | nil => intro s; simp [applyChain]
  | cons op rest ih =>
    intro s
    have h := ih (applyChainOp s op)
    have hfold : applyChain (op :: rest) s = applyChain rest (applyChainOp s op) := by
      simp [applyChain]
    rw [hfold]
    obtain ⟨h1, h2, h3, h4⟩ := h
    cases op <;>
      simp [applyChainOp, List.contains_cons] at h1 h2 h3 h4 ⊢ <;>
      simp [h1, h2, h3, h4, Bool.or_assoc]

theorem ensure_applied (s : FWState) :
    (ensureRevisionFilters s).revisionFiltersApplied = true := by
  unfold ensureRevisionFilters
  by_cases h : s.revisionFiltersApplied = true
  · simp [h]
  · have h' : s.revisionFiltersApplied = false := by simpa using h
    by_cases h1 : s.hasRevisions <;> by_cases h2 : s.includeStale <;>
      by_cases h3 : s.includeDeleted <;> simp [h', h1, h2, h3]

theorem ensure_of_applied (s : FWState) (h : s.revisionFiltersApplied = true) :
    ensureRevisionFilters s = s := by
  unfold ensureRevisionFilters
  simp [h]

theorem ensure_conds_eq (s : FWState) (h : s.revisionFiltersApplied = false)
    (hrev : s.hasRevisions = true) :
    (ensureRevisionFilters s).conds = s.conds
      ++ (if s.includeStale then [] else [staleGuard])
      ++ (if s.includeDeleted then [] else [deletedGuard]) := by
  unfold ensureRevisionFilters
  by_cases h2 : s.includeStale <;> by_cases h3 : s.includeDeleted <;>
    simp [h, hrev, h2, h3, addWhereCondition, staleGuard, deletedGuard]

/-- C3: the default revision guards are injected lazily and exactly once
at the first execution call: a method chain leaves the injection flag
unset and adds no guard by itself; the first `_ensureRevisionFilters`
appends `_old_rev_of IS NULL` and `_rev_deleted = false` after the
user's predicates, each suppressed when `includeStale()` /
`includeDeleted()` occurred anywhere in the chain; re-running the
injection changes nothing; and `filterWhere({})` on a revision-enabled
entity returns exactly the rows with archived-marker null and
deleted=false. -/
theorem filterWhere_lazy_revision_guards :
    (∀ ops : List ChainOp,
      (applyChain ops (filterWhere true [])).revisionFiltersApplied = false ∧
      (ensureRevisionFilters (applyChain ops (filterWhere true []))).conds =
        (applyChain ops (filterWhere true [])).conds
          ++ (if ops.contains ChainOp.includeStale then [] else [staleGuard])
          ++ (if ops.contains ChainOp.includeDeleted then [] else [deletedGuard]) ∧
      ensureRevisionFilters (ensureRevisionFilters (applyChain ops (filterWhere true [])))
        = ensureRevisionFilters (applyChain ops (filterWhere true []))) ∧
    (∀ t : Table, (runFW (filterWhere true []) t).2 =
        t.filter (fun r => r.oldRevOf == none && !r.revDeleted)) := by
  constructor
  · intro ops
    obtain ⟨h1, h2, h3, h4⟩ := applyChain_flags ops (filterWhere true [])
    have hrev : (applyChain ops (filterWhere true [])).hasRevisions = true := by
      simpa [filterWhere] using h1
    have happ : (applyChain ops (filterWhere true [])).revisionFiltersApplied = false := by
      simpa [filterWhere] using h2
    refine ⟨happ, ?_, ensure_of_applied _ (ensure_applied _)⟩
    rw [ensure_conds_eq _ happ hrev, h3, h4]
    simp [filterWhere]
  · intro t
    have hconds : (ensureRevisionFilters (filterWhere true [])).conds
        = [staleGuard, deletedGuard] := by
      rw [ensure_conds_eq (filterWhere true []) rfl rfl]
      simp [filterWhere]
    have hpt : ∀ r : Row,
        ((ensureRevisionFilters (filterWhere true [])).conds.all
          (fun c => evalCond c r)) = (r.oldRevOf == none && !r.revDeleted) := by
      intro r
      rw [hconds]
      cases ho : r.oldRevOf <;> cases hd : r.revDeleted <;>
        simp [evalCond, colVal, staleGuard, deletedGuard, ho, hd]
    unfold runFW
    exact List.filter_congr (fun r _ => hpt r)

/-- C9: `ops.in([])` and `ops.notIn([])` throw synchronously at the call
site — the descriptor is never constructed, so no query is issued and
the builder's predicate state is untouched; a non-empty input yields a
descriptor whose build delegate appends exactly one `= ANY` / `!= ALL`
predicate. -/
theorem ops_in_empty_rejected :
    (∀ cast : Option String,
      opIn [] cast = Except.error "FilterWhere ops.in requires at least one value." ∧
      opNotIn [] cast = Except.error "FilterWhere ops.in requires at least one value.") ∧
    (∀ (vs : List String) (cast : Option String), vs ≠ [] →
      ∃ d : OpDescr, opIn vs cast = Except.ok d ∧
        ∀ (conds : List Cond) (field : String),
          applyEntry conds field (LitVal.opDescr d) =
            conds ++ [{ column := field, op := "= ANY",
                        value := SqlVal.strList vs, cast := cast }]) := by
  constructor
  · intro cast
    exact ⟨rfl, rfl⟩
  · intro vs cast h
    have hlen : (vs.length == 0) = false := by
      simp [List.length_eq_zero]
      exact h
    refine ⟨{ value := SqlVal.strList vs,
              build := fun col =>
                some { column := col, op := "= ANY", value := SqlVal.strList vs,
                       cast := cast } }, ?_, ?_⟩
    · simp [opIn, normalizeNonEmptyArrayValue, hlen, Except.map]
    · intro conds field
      rfl

theorem ops_in_empty_rejected_witness :
    (opIn [] none = Except.error "FilterWhere ops.in requires at least one value.") ∧
    (∃ d : OpDescr, opIn ["draft", "published"] none = Except.ok d ∧
      ∀ (conds : List Cond) (field : String),
        applyEntry conds field (LitVal.opDescr d) =
          conds ++ [{ column := field, op := "= ANY",
                      value := SqlVal.strList ["draft", "published"], cast := none }]) := by
  exact ⟨(ops_in_empty_rejected.1 none).1,
    ops_in_empty_rejected.2 ["draft", "published"] none (by decide)⟩

/-- C10: `ops.containsAll([])` and `ops.containsAny([])` do not throw:
the descriptor is constructed and its build closure returns null, so the
literal contributes no predicate and (on an entity without revision
guards) the query returns every row — the opposite treatment of the
empty-input ambiguity from `in()`/`notIn()`. -/
theorem containsOps_empty_match_all :
    ((containsAll (StrOrList.many [])).build "urls" = none ∧
     (containsAny (StrOrList.many [])).build "urls" = none) ∧
    (∀ (conds : List Cond) (field : String),
      applyEntry conds field (LitVal.opDescr (containsAll (StrOrList.many []))) = conds ∧
      applyEntry conds field (LitVal.opDescr (containsAny (StrOrList.many []))) = conds) ∧
    (∀ t : Table,
      (runFW (filterWhere false
        [("urls", LitVal.opDescr (containsAll (StrOrList.many [])))]) t).2 = t ∧
      (runFW (filterWhere false
        [("urls", LitVal.opDescr (containsAny (StrOrList.many [])))]) t).2 = t) := by
  refine ⟨⟨rfl, rfl⟩, fun conds field => ⟨rfl, rfl⟩, fun t => ⟨?_, ?_⟩⟩ <;>
    simp [runFW, filterWhere, ensureRevisionFilters, applyEntry, containsAll,
      containsAny, normalizeArrayValue]

/-- C5 counterexample: the batched (complex) join query for a
`many`-cardinality relation renders `SELECT <relation>_target.*`, so its
output is *not* an explicit enumeration restricted to non-sensitive
columns — the joined entity's sensitive `password` column is among the
query's output columns. -/
theorem complexJoin_star_counterexample :
    SelectItem.star "teams_target" ∈ buildComplexJoinSelectItems "teams" teamsJoinInfo ∧
    "password" ∈ outputColumns
      (fun a => if a == "teams_target" then some teamsModel else none)
      (buildComplexJoinSelectItems "teams" teamsJoinInfo) := by decide

/-- C5 amended: only the main SELECT (with inline one-cardinality joins)
enumerates output columns explicitly — no `table.*` item ever appears,
and every aliased joined column is one of some joined relation's
non-sensitive columns under its `relationName_column` alias; the
batched (complex) join query for a `many`-cardinality relation instead
always selects `<relation>_target.*`, all physical columns of the
target including sensitive ones. -/
theorem join_select_columns_amended :
    (∀ (m : ModelDef) (includeSensitive : List String)
        (joins : List SimpleJoinEntry),
      (∀ tbl, SelectItem.star tbl ∉ buildSelectItems m includeSensitive joins) ∧
      (∀ tbl c a, SelectItem.aliased tbl c a ∈ buildSelectItems m includeSensitive joins →
        ∃ j ∈ joins, tbl = j.joinTable ∧ c ∈ getSafeColumnNames j.relatedModel ∧
          a = j.relationName ++ "_" ++ c)) ∧
    (∀ (relationName : String) (joinInfo : ComplexJoinInfo),
      SelectItem.star (relationName ++ "_target") ∈
        buildComplexJoinSelectItems relationName joinInfo) := by
  constructor
  · intro m includeSensitive joins
    constructor
    · intro tbl hmem
      by_cases hj : joins.isEmpty <;>
        simp [buildSelectItems, hj, List.mem_append, List.mem_map, List.mem_join] at hmem
    · intro tbl c a hmem
      by_cases hj : joins.isEmpty
      · simp [buildSelectItems, hj, List.mem_map] at hmem
      · simp only [buildSelectItems, hj, Bool.not_false, if_pos, List.mem_append,
          List.mem_map, List.mem_join] at hmem
        rcases hmem with ⟨x, _, hx⟩ | ⟨l, ⟨j, hjmem, hl⟩, hal⟩
        · exact absurd hx (by simp)
        · rw [← hl] at hal
          simp only [List.mem_map] at hal
          obtain ⟨c', hc', heq⟩ := hal
          have h1 : tbl = j.joinTable := by
            have := congrArg (fun s => match s with
              | SelectItem.aliased t _ _ => t | _ => "") heq
            simpa using this.symm
          have h2 : c = c' := by
            have := congrArg (fun s => match s with
              | SelectItem.aliased _ cc _ => cc | _ => "") heq
            simpa using this.symm
          have h3 : a = j.relationName ++ "_" ++ c' := by
            have := congrArg (fun s => match s with
              | SelectItem.aliased _ _ aa => aa | _ => "") heq
            simpa using this.symm
          exact ⟨j, hjmem, h1, by rw [h2]; exact hc', by rw [h3, h2]⟩
  · intro relationName joinInfo
    by_cases h : joinInfo.isThrough <;> simp [buildComplexJoinSelectItems, h]

theorem join_select_columns_amended_witness :
    (∃ j ∈ [creatorJoin], "users" = j.joinTable ∧
      "name" ∈ getSafeColumnNames j.relatedModel ∧
      "creator_name" = j.relationName ++ "_" ++ "name") ∧
    SelectItem.star "teams_target" ∈
      buildComplexJoinSelectItems "teams" teamsJoinInfo := by
  constructor
  · exact (join_select_columns_amended.1 reviewsModel [] [creatorJoin]).2
      "users" "name" "creator_name" (by decide)
  · exact join_select_columns_amended.2 "teams" teamsJoinInfo

/-- C6: `increment(field, amount, {returning?})` fails before issuing
any SQL when joins are active, when the resolved schema field is not
numeric (with a descriptive error naming the field), or when no WHERE
predicate is present; a success is exactly one parameterized UPDATE
`SET col = col + $n` scoped by the accumulated WHERE predicates, with
RETURNING columns resolved to storage names and result rows remapped
back to logical names. -/
theorem increment_guards_and_shape :
    (∀ (qb : QBState) (field : String) (amount : Int) (returning : List String),
      qb.joins ≠ [] →
      increment qb field amount returning = Except.error IncrementError.joinsActive) ∧
    (∀ (qb : QBState) (field : String) (amount : Int) (returning : List String)
        (n : String) (fdef : FieldDef),
      qb.joins = [] →
      findSchemaFieldName qb.model field (getDbFieldName qb.model field) = some n →
      qb.model.fields.find? (fun f => f.name == n) = some fdef →
      fdef.kind ≠ FieldKind.num →
      increment qb field amount returning = Except.error (IncrementError.notNumeric n)) ∧
    (∀ (qb : QBState) (field : String) (amount : Int) (returning : List String),
      qb.conds = [] →
      ∀ q, increment qb field amount returning ≠ Except.ok q) ∧
    (∀ (qb : QBState) (field : String) (amount : Int) (returning : List String)
        (q : IncrementQuery),
      increment qb field amount returning = Except.ok q →
      qb.joins = [] ∧ qb.conds ≠ [] ∧
      q = incrementOkQuery qb field amount returning ∧
      (∃ n fdef,
        findSchemaFieldName qb.model field (getDbFieldName qb.model field) = some n ∧
        qb.model.fields.find? (fun f => f.name == n) = some fdef ∧
        fdef.kind = FieldKind.num)) ∧
    (∀ (camel snake : String) (v : SqlVal),
      remapRowToCamelCase [(snake, v)] [(camel, snake)] = [(camel, v)]) ∧
    (∀ (storageRows : List (List (String × SqlVal)))
        (fieldMappings : List (String × String)),
      incrementResultRows storageRows [] fieldMappings = []) := by
  refine ⟨?_, ?_, ?_, ?_, ?_, ?_⟩
  · intro qb field amount returning h
    unfold increment
    rw [if_pos (List.length_pos.mpr h)]
  · intro qb field amount returning n fdef hj hfind hfdef hkind
    unfold increment
    rw [if_neg (by simp [hj])]
    simp only [hfind, hfdef]
    rw [if_pos (by simp [hkind])]
  · intro qb field amount returning hconds q
    unfold increment
    by_cases hj : qb.joins.length > 0
    · simp [hj]
    · rw [if_neg hj]
      cases hfind : findSchemaFieldName qb.model field (getDbFieldName qb.model field) with
      | none => simp
      | some n =>
        cases hfdef : qb.model.fields.find? (fun f => f.name == n) with
        | none => simp [hfdef]
        | some fdef =>
          by_cases hkind : (fdef.kind != FieldKind.num) = true
          · simp [hfdef, hkind]
          · simp [hfdef, hkind, hconds]
  · intro qb field amount returning q h
    unfold increment at h
    by_cases hj : qb.joins.length > 0
    · rw [if_pos hj] at h
      exact absurd h (by simp)
    · rw [if_neg hj] at h
      have hjoins : qb.joins = [] := by
        have : qb.joins.length = 0 := by omega
        exact List.eq_nil_of_length_eq_zero this
      rcases hfind : findSchemaFieldName qb.model field (getDbFieldName qb.model field)
        with _ | n
      · simp only [hfind] at h
        exact absurd h (by simp)
      · simp only [hfind] at h
        rcases hfdef : qb.model.fields.find? (fun f => f.name == n) with _ | fdef
        · simp only [hfdef] at h
          exact absurd h (by simp)
        · simp only [hfdef] at h
          by_cases hkind : (fdef.kind != FieldKind.num) = true
          · rw [if_pos hkind] at h
            exact absurd h (by simp)
          · rw [if_neg hkind] at h
            by_cases hcond : qb.conds.isEmpty
            · rw [if_pos hcond] at h
              exact absurd h (by simp)
            · rw [if_neg hcond] at h
              have hq : q = incrementOkQuery qb field amount returning := by
                have h' := h
                simp only [Except.ok.injEq] at h'
                exact h'.symm
              refine ⟨hjoins, ?_, hq, n, fdef, rfl, hfdef, by simpa using hkind⟩
              intro hc
              exact hcond (by rw [hc]; rfl)
  · intro camel snake v
    simp [remapRowToCamelCase, List.lookup]
  · intro storageRows fieldMappings
    rfl

theorem increment_guards_and_shape_witness :
    increment joinedQB "counter" 1 [] = Except.error IncrementError.joinsActive ∧
    increment postsQB "title" 1 ["title"] =
      Except.error (IncrementError.notNumeric "title") ∧
    (countersQB.joins = [] ∧ countersQB.conds ≠ [] ∧
      incrementOkQuery countersQB "counter" 1 ["counter"]
        = incrementOkQuery countersQB "counter" 1 ["counter"] ∧
      (∃ n fdef,
        findSchemaFieldName countersQB.model "counter"
          (getDbFieldName countersQB.model "counter") = some n ∧
        countersQB.model.fields.find? (fun f => f.name == n) = some fdef ∧
        fdef.kind = FieldKind.num)) ∧
    incrementOkQuery countersQB "counter" 1 ["counter"] =
      { table := "counters", column := "counter", amountParam := 2, amount := 1,
        whereConds := [{ column := "id", op := "=", value := SqlVal.str "user-1" }],
        returningColumns := ["counter"] } := by
  refine ⟨?_, ?_, ?_, by decide⟩
  · exact increment_guards_and_shape.1 joinedQB "counter" 1 [] (by decide)
  · exact increment_guards_and_shape.2.1 postsQB "title" 1 ["title"] "title"
      { name := "title" } (by decide) (by decide) (by decide) (by decide)
  · exact increment_guards_and_shape.2.2.2.1 countersQB "counter" 1 ["counter"]
      (incrementOkQuery countersQB "counter" 1 ["counter"]) (by rfl)

theorem validateFieldValue_error_shape (f : FieldDef) (v : Option SqlVal)
    (e : ErrObj) (h : validateFieldValue f v = Except.error e) :
    e.name = "ValidationError" ∧ e.code = some "VALIDATION_ERROR" := by
  unfold validateFieldValue at h
  split at h
  · split at h
    · injection h with h'
      subst h'
      exact ⟨rfl, rfl⟩
    · exact absurd h (by simp)
  · split at h <;>
      first
        | (injection h with h'; subst h'; exact ⟨rfl, rfl⟩)
        | (exact absurd h (by simp))

theorem validateInstance_error_shape (m : ModelDef)
    (data : List (String × SqlVal)) (e : ErrObj)
    (h : validateInstance m data = Except.error e) :
    e.name = "ValidationError" ∧ e.code = some "VALIDATION_ERROR" := by
  suffices haux : ∀ (fields : List FieldDef) (acc : Except ErrObj Unit),
      fields.foldl (validateStep m data) acc = Except.error e →
      acc = Except.error e ∨
        ∃ f v, validateFieldValue f v = Except.error e by
    rcases haux m.fields (Except.ok ()) h with hacc | ⟨f, v, hfv⟩
    · simp at hacc
    · exact validateFieldValue_error_shape f v e hfv
  intro fields
  induction fields with
  | nil => intro acc hacc; exact Or.inl hacc
  | cons f fs ih =>
    intro acc hacc
    rcases ih (validateStep m data acc f) hacc with hstep | hex
    · rcases acc with e' | u
      · left
        simp only [validateStep] at hstep
        exact hstep
      · right
        simp only [validateStep] at hstep
        split at hstep
        · exact absurd hstep (by simp)
        · exact ⟨f, data.lookup (getDbFieldName m f.name), hstep⟩
    · exact Or.inr hex

/-- C7 counterexample: a schema-level validation failure during `save`
surfaces as a `QueryError` (the fallback of the vendor-code mapping),
not as a `ValidationError`: for a numeric field holding a string, the
caller receives name `QueryError`, code `QUERY_ERROR`, wrapping the
`ValidationError` — so the claim that the surfaced error is of the
ValidationError kind fails. -/
theorem save_validation_kind_counterexample :
    modelSave countersModel [("counter", SqlVal.str "x")] (Except.ok ()) =
      (Except.error { name := "QueryError", message := "counter must be a finite number", code := some "QUERY_ERROR", originalName := some "ValidationError" }, false) ∧
    ({ name := "QueryError", message := "counter must be a finite number", code := some "QUERY_ERROR", originalName := some "ValidationError" } : ErrObj).name
      ≠ "ValidationError" := by
  exact ⟨rfl, by decide⟩

/-- C7 amended: a rejected schema validation aborts `save` before any
query is issued, but the single vendor-code mapping at the save
boundary is applied to *every* error crossing it — including the DAL's
own `ValidationError`, whose `VALIDATION_ERROR` code matches no vendor
case — so the caller receives a generic `QueryError` (message
preserved, wrapping the ValidationError) rather than a
ValidationError; storage-layer errors are translated through the same
mapping. -/
theorem save_error_translation_amended :
    (∀ (m : ModelDef) (data : List (String × SqlVal))
        (storage : Except ErrObj Unit) (e : ErrObj),
      validateInstance m data = Except.error e →
      modelSave m data storage = (Except.error (convertPostgreSQLError e), false)) ∧
    (∀ e : ErrObj, e.code = some "VALIDATION_ERROR" →
      (convertPostgreSQLError e).name = "QueryError" ∧
      (convertPostgreSQLError e).code = some "QUERY_ERROR" ∧
      (convertPostgreSQLError e).message = e.message ∧
      (convertPostgreSQLError e).originalName = some e.name) ∧
    (∀ (m : ModelDef) (data : List (String × SqlVal)) (e : ErrObj),
      validateInstance m data = Except.ok () →
      modelSave m data (Except.error e) =
        (Except.error (convertPostgreSQLError e), true)) ∧
    (∀ (m : ModelDef) (data : List (String × SqlVal)) (e : ErrObj),
      validateInstance m data = Except.error e →
      e.name = "ValidationError" ∧ e.code = some "VALIDATION_ERROR") := by
  refine ⟨?_, ?_, ?_, validateInstance_error_shape⟩
  · intro m data storage e h
    unfold modelSave
    rw [h]
  · intro e h
    refine ⟨?_, ?_, ?_, ?_⟩ <;> simp [convertPostgreSQLError, h]
  · intro m data e h
    unfold modelSave
    rw [h]

theorem save_error_translation_amended_witness :
    modelSave countersModel [("counter", SqlVal.str "x")] (Except.ok ()) =
      (Except.error (convertPostgreSQLError
        (mkValidationError "counter must be a finite number")), false) ∧
    (convertPostgreSQLError (mkValidationError "boom")).name = "QueryError" ∧
    modelSave countersModel [("counter", SqlVal.num 3)]
        (Except.error dupConstraintError) =
      (Except.error (convertPostgreSQLError dupConstraintError), true) := by
  refine ⟨?_, ?_, ?_⟩
  · exact save_error_translation_amended.1 countersModel
      [("counter", SqlVal.str "x")] (Except.ok ())
      (mkValidationError "counter must be a finite number") (by rfl)
  · exact (save_error_translation_amended.2.1
      (mkValidationError "boom") (by decide)).1
  · exact save_error_translation_amended.2.2.1 countersModel
      [("counter", SqlVal.num 3)] dupConstraintError (by rfl)

/-- C8 counterexample: `loadManyRelated` does *not* require a `through`
junction spec — a non-empty id list against a direct (non-junction)
relation is served with a direct one-to-many query rather than
rejected; only `addManyRelated` rejects the non-junction relation. -/
theorem loadManyRelated_direct_counterexample :
    loadManyRelated [authorRelation] ["users"] "author" ["u1"] =
      Except.ok (LoadAction.directQuery "users" "id" ["u1"] false) ∧
    addManyRelated [authorRelation] "author" "s1" ["u1"] "ignore" =
      Except.error (AddError.notJunction "author") := by
  exact ⟨rfl, rfl⟩

/-- C8 amended: `addManyRelated` requires the named relation to carry a
`through` junction spec and rejects a non-junction relation with a
descriptive error; `loadManyRelated` rejects only an *unknown* relation
name — with a descriptive error naming the available relations — and
serves a known relation without a `through` spec via a direct
one-to-many batched query; empty inputs short-circuit without
querying. -/
theorem manyRelated_junction_requirements_amended :
    (∀ (relations : List RelationConfig) (relationName sourceId : String)
        (targetIds : List String) (onConflict : String) (rc : RelationConfig),
      (sourceId.length == 0) = false →
      dedupIds targetIds ≠ [] →
      relations.find? (fun r => r.name == relationName) = some rc →
      rc.through = none →
      addManyRelated relations relationName sourceId targetIds onConflict =
        Except.error (AddError.notJunction relationName)) ∧
    (∀ (relations : List RelationConfig) (registered : List String)
        (relationName : String) (sourceIds : List String),
      dedupIds sourceIds ≠ [] →
      relations.find? (fun r => r.name == relationName) = none →
      loadManyRelated relations registered relationName sourceIds =
        Except.error (LoadError.relationNotFound relationName
          (relations.map (fun r => r.name)))) ∧
    (∀ (relations : List RelationConfig) (registered : List String)
        (relationName : String) (sourceIds : List String) (rc : RelationConfig),
      dedupIds sourceIds ≠ [] →
      relations.find? (fun r => r.name == relationName) = some rc →
      rc.through = none →
      registered.contains (rc.targetModelKey.getD rc.targetTable) = true →
      loadManyRelated relations registered relationName sourceIds =
        Except.ok (LoadAction.directQuery rc.targetTable
          (rc.targetColumn.getD "id") (dedupIds sourceIds) rc.hasRevisions)) ∧
    (∀ (relations : List RelationConfig) (registered : List String)
        (relationName : String),
      loadManyRelated relations registered relationName [] =
        Except.ok LoadAction.emptyMap) ∧
    (∀ (relations : List RelationConfig) (relationName sourceId : String)
        (onConflict : String),
      (sourceId.length == 0) = false →
      addManyRelated relations relationName sourceId [] onConflict =
        Except.ok AddAction.noop) := by
  refine ⟨?_, ?_, ?_, ?_, ?_⟩
  · intro relations relationName sourceId targetIds onConflict rc
      hsid hids hfind hth
    unfold addManyRelated
    rw [if_neg (by simp [hsid])]
    rw [if_neg (by simpa [List.isEmpty_iff] using hids)]
    simp only [hfind, hth]
  · intro relations registered relationName sourceIds hids hfind
    unfold loadManyRelated
    rw [if_neg (by simpa [List.isEmpty_iff] using hids)]
    simp only [hfind]
  · intro relations registered relationName sourceIds rc hids hfind hth hreg
    unfold loadManyRelated
    rw [if_neg (by simpa [List.isEmpty_iff] using hids)]
    simp only [hfind, hth, hreg]
    rw [if_neg (by simp)]
  · intro relations registered relationName
    rfl
  · intro relations relationName sourceId onConflict hsid
    unfold addManyRelated
    rw [if_neg (by simp [hsid])]
    rfl

theorem manyRelated_junction_requirements_amended_witness :
    addManyRelated [authorRelation] "author" "s1" ["u1", "u1", ""] "ignore" =
      Except.error (AddError.notJunction "author") ∧
    loadManyRelated [authorRelation] ["users"] "missing" ["u1"] =
      Except.error (LoadError.relationNotFound "missing" ["author"]) ∧
    loadManyRelated [authorRelation] ["users"] "author" ["u2", "u2"] =
      Except.ok (LoadAction.directQuery "users" "id" ["u2"] false) := by
  refine ⟨?_, ?_, ?_⟩
  · exact manyRelated_junction_requirements_amended.1 [authorRelation]
      "author" "s1" ["u1", "u1", ""] "ignore" authorRelation
      (by decide) (by decide) (by decide) (by decide)
  · exact manyRelated_junction_requirements_amended.2.1 [authorRelation]
      ["users"] "missing" ["u1"] (by decide) (by decide)
  · exact manyRelated_junction_requirements_amended.2.2.1 [authorRelation]
      ["users"] "author" ["u2", "u2"] authorRelation
      (by decide) (by decide) (by decide) (by decide)

end RevDal
